import Mathlib

/-!
Verification development for the `letsroll` dice-rolling engine.

The repository contains several co-existing revisions of its data model; the
action engine in `src/actions.rs` is the most feature-complete revision and is
the authority for action semantics.  The dice module that this revision of
`actions.rs` uses (the `Rolls` record, the `DiceGenerator`/`Roll` generator
capability, the payload-carrying `NumericDice`/`FudgeDice` enums and the
`FudgeRoll` enum) is not present under `src/`; only its callers, doc examples
and the spec describe it.  Definitions below that embed that missing module
are marked `Modelled from the spec:` in their doc comment.  Everything else is
translated directly from the sources (`src/actions.rs`, `src/dice.rs`,
`src/dice2.rs`, `src/errors.rs`, `src/io/read.rs`, `src/io/write.rs`).

Machine integers are embedded as `Nat` with explicit reductions where the Rust
types wrap or truncate: roll values are `u16` (mod 65536 arithmetic in
`MultiplyBy`/`Sum`/`Total`), dice counts are `u8` (the `as DiceNumber` casts
become `% 256`).  The stateful random generator is embedded as an oracle
`Nat → Nat` consumed at an advancing index: a dice roll takes the current
index and returns the drawn values together with the new index.
-/

namespace LetsRoll

/-- Numeric roll values are Rust `u16` (`src/dice.rs` line 12); embedded as
`Nat`, with an explicit `% 65536` wherever the code performs `u16` arithmetic. -/
abbrev NumericRoll := Nat

/-- Wrapping `u16` addition (release-mode semantics of `+` on `u16`). -/
def add16 (a b : NumericRoll) : NumericRoll := (a + b) % 65536

/-- Wrapping `u16` multiplication (release-mode semantics of `*` on `u16`),
as performed by `MultiplyBy` in `src/actions.rs` line 75. -/
def mul16 (a b : NumericRoll) : NumericRoll := (a * b) % 65536

/-- Model of `iter().sum::<u16>()`: a left fold of wrapping `u16` additions. -/
def sum16 (l : List NumericRoll) : NumericRoll := l.foldl add16 0

/-- Fudge roll values (`Blank`/`Plus`/`Minus`), as used by `src/actions.rs` and
defined in the `src/dice.rs` revision that `src/io/write.rs` displays. -/
inductive FudgeRoll
  | Blank
  | Plus
  | Minus
deriving DecidableEq

/-- Modelled from the spec: the payload-carrying numeric dice enum of the
`actions.rs` revision (`ConstDice(value)`, `NumberedDice(sides)`,
`RepeatingDice(values)` as in `src/dice2.rs`, plus the `AggregationResult`
marker used by `Total` and `CountValues` in `src/actions.rs`). -/
inductive NumericDice
  | ConstDice (value : NumericRoll)
  | NumberedDice (sides : NumericRoll)
  | RepeatingDice (values : List NumericRoll)
  | AggregationResult
deriving DecidableEq

/-- Modelled from the spec: the fudge dice enum of the `actions.rs` revision
(shape as in `src/dice2.rs`). -/
inductive FudgeDice
  | FudgeDice
  | ConstDice (value : FudgeRoll)
  | RepeatingDice (values : List FudgeRoll)
deriving DecidableEq

/-- Model of `RepeatingDice::roll` (`src/dice.rs` lines 132-142) and
`Dice::roll_repeating` (`src/dice2.rs` lines 72-78): clone the value list,
append one further clone for each of `n / len` loop iterations, then take the
slice `[0..n]`.  (For an empty value list the Rust code panics on a division
by zero; `RepeatingDice::new` rejects empty lists at construction time.) -/
def roll_repeating {T : Type} (n : Nat) (values : List T) : List T :=
  ((List.replicate (n / values.length + 1) values).flatten).take n

/-- Model of `roll_const_dice` (`src/dice2.rs` line 80): `n` copies of the
constant value. -/
def roll_const {T : Type} (n : Nat) (value : T) : List T :=
  List.replicate n value

/-- Modelled from the spec: rolling a numeric dice with the generator
capability.  `ConstDice` and `RepeatingDice` are deterministic and follow
`src/dice2.rs`; `NumberedDice sides` returns `n` draws in `[1, sides]`
obtained from the oracle `om` at the advancing generator index `g` (the spec's
"count independent uniform draws from [1, sides] inclusive", with the RNG left
abstract).  Rolling the `AggregationResult` marker is not defined by any
surviving source or spec sentence; it is embedded as producing no values and
is never exercised by the claims. -/
def rollNumeric (om : Nat → Nat) (d : NumericDice) (n : Nat) (g : Nat) :
    List NumericRoll × Nat :=
  match d with
  | .ConstDice v => (roll_const n v, g)
  | .NumberedDice sides => (((List.range n).map fun i => om (g + i) % sides + 1), g + n)
  | .RepeatingDice vals => (roll_repeating n vals, g)
  | .AggregationResult => ([], g)

/-- Modelled from the spec: rolling a fudge dice with the generator
capability; the `FudgeDice` kind returns `n` draws from
`{Blank, Plus, Minus}` obtained from the oracle (cf. `roll_fudge_dice`,
`src/dice2.rs` lines 97-106), the other kinds follow `src/dice2.rs`. -/
def rollFudge (om : Nat → Nat) (d : FudgeDice) (n : Nat) (g : Nat) :
    List FudgeRoll × Nat :=
  match d with
  | .FudgeDice =>
    (((List.range n).map fun i =>
        match om (g + i) % 3 with
        | 0 => FudgeRoll.Blank
        | 1 => FudgeRoll.Plus
        | _ => FudgeRoll.Minus), g + n)
  | .ConstDice v => (roll_const n v, g)
  | .RepeatingDice vals => (roll_repeating n vals, g)

/-- Model of `Vec::join(sep)`, used by the description-building `format!`
calls in `src/actions.rs`. -/
def joinVec (sep : String) : List String → String
  | [] => ""
  | [a] => a
  | a :: b :: rest => a ++ sep ++ joinVec sep (b :: rest)

/-- Display of a fudge roll (`src/io/write.rs` lines 6-18): `Blank` prints as
`0`, `Plus` as `+`, `Minus` as `-`. -/
def fudgeRollDisplay : FudgeRoll → String
  | .Blank => "0"
  | .Plus => "+"
  | .Minus => "-"

/-- Debug rendering of a fudge roll (the `derive(Debug)` on the enum), used by
the Debug-based `Display` of `Action` (`src/actions.rs` lines 43-47). -/
def fudgeRollDebug : FudgeRoll → String
  | .Blank => "Blank"
  | .Plus => "Plus"
  | .Minus => "Minus"

/-- Debug rendering of a `Vec`: `[a, b, c]`. -/
def vecDebug (elems : List String) : String := "[" ++ joinVec ", " elems ++ "]"

/-- The closed action enumeration (`src/actions.rs` lines 16-42). -/
inductive Action
  | RerollNumeric (values : List NumericRoll)
  | RerollFudge (values : List FudgeRoll)
  | Sum
  | Total
  | MultiplyBy (factor : NumericRoll)
  | FlipFlop
  | Explode (values : List NumericRoll)
  | ExplodeFudge (values : List FudgeRoll)
  | KeepBest (n : Nat)
  | KeepWorst (n : Nat)
  | RerollBest (n : Nat)
  | RerollWorst (n : Nat)
deriving DecidableEq

/-- Model of `Action`'s `Display`, which is its derived `Debug` rendering
(`src/actions.rs` lines 43-47): variant name, parameters in parentheses. -/
def Action.toDisplayString : Action → String
  | .RerollNumeric vs => "RerollNumeric(" ++ vecDebug (vs.map toString) ++ ")"
  | .RerollFudge vs => "RerollFudge(" ++ vecDebug (vs.map fudgeRollDebug) ++ ")"
  | .Sum => "Sum"
  | .Total => "Total"
  | .MultiplyBy f => "MultiplyBy(" ++ toString f ++ ")"
  | .FlipFlop => "FlipFlop"
  | .Explode vs => "Explode(" ++ vecDebug (vs.map toString) ++ ")"
  | .ExplodeFudge vs => "ExplodeFudge(" ++ vecDebug (vs.map fudgeRollDebug) ++ ")"
  | .KeepBest n => "KeepBest(" ++ toString n ++ ")"
  | .KeepWorst n => "KeepWorst(" ++ toString n ++ ")"
  | .RerollBest n => "RerollBest(" ++ toString n ++ ")"
  | .RerollWorst n => "RerollWorst(" ++ toString n ++ ")"

/-- The error kinds of `src/errors.rs` lines 72-96. -/
inductive ErrorKind
  | Parse (msg : String)
  | ParseDice (msg : String)
  | IncompatibleAction (msg : String)
  | BadDice (msg : String)
  | File (msg : String)
  | BadActionParameter (msg : String)
deriving DecidableEq

/-- The error record of `src/errors.rs` lines 10-13. -/
structure Error where
  kind : ErrorKind
deriving DecidableEq

/-- Model of the `{:?}` Debug rendering of a Rust `String`: the text wrapped
in double quotes (none of the strings rendered this way in the program contain
characters that Debug would escape). -/
def rustDebugStr (s : String) : String := "\"" ++ s ++ "\""

/-- The message built by `Error::incompatible` (`src/errors.rs` lines 32-39):
`format!("Action {:?} not supported by roll type {:?}", action, roll_type)`. -/
def incompatibleMsg (action rollType : String) : String :=
  "Action " ++ rustDebugStr action ++ " not supported by roll type " ++
    rustDebugStr rollType

/-- Constructor `Error::incompatible` (`src/errors.rs` lines 32-39). -/
def Error.incompatible (action rollType : String) : Error :=
  ⟨.IncompatibleAction (incompatibleMsg action rollType)⟩

/-- Constructor `Error::bad_action_parameter` (`src/errors.rs` lines 41-45). -/
def Error.badActionParameter (msg : String) : Error :=
  ⟨.BadActionParameter msg⟩

/-- Modelled from the spec: the roll-result record of the `actions.rs`
revision — an accumulated human-readable description, the originating dice
kind, and the ordered value sequence (spec section 3, "Rolls"). -/
structure Rolls (T V : Type) where
  description : String
  dice : V
  rolls : List T
deriving DecidableEq

abbrev NumericRolls := Rolls NumericRoll NumericDice

abbrev FudgeRolls := Rolls FudgeRoll FudgeDice

/-- Element-wise `u16` multiplication, `MultiplyBy` for `Vec<NumericRoll>`
(`src/actions.rs` lines 73-77). -/
def multiplyVec (rolls : List NumericRoll) (factor : NumericRoll) : List NumericRoll :=
  rolls.map fun roll => mul16 roll factor

/-- `MultiplyBy` for `NumericRolls` (`src/actions.rs` lines 78-86). -/
def NumericRolls.multiply (self : NumericRolls) (factor : NumericRoll) : NumericRolls :=
  { description := "(" ++ self.description ++ ") x " ++ toString factor
    dice := self.dice
    rolls := multiplyVec self.rolls factor }

/-- `Sum` for `Vec<NumericRoll>` (`src/actions.rs` lines 192-196): a single
element holding the `u16` sum. -/
def sumVec (rolls : List NumericRoll) : List NumericRoll := [sum16 rolls]

/-- `Sum` for `NumericRolls` (`src/actions.rs` lines 197-205). -/
def NumericRolls.sum (self : NumericRolls) : NumericRolls :=
  { description := "sum(" ++ self.description ++ ")"
    dice := self.dice
    rolls := sumVec self.rolls }

/-- Max value of a numeric dice: the constant, the side count, or the maximum
of the repeating sequence (`get_max_value`, cf. `src/dice.rs` lines 60-68 and
106-148; the repeating case is `iter().max().unwrap_or(0)`).  The
`AggregationResult` case has no surviving source; it is embedded as 0 and is
never exercised by the claims. -/
def NumericDice.get_max_value : NumericDice → NumericRoll
  | .ConstDice v => v
  | .NumberedDice sides => sides
  | .RepeatingDice vals => vals.foldl max 0
  | .AggregationResult => 0

/-- Little-endian decimal digits with structural fuel (so that the definition
reduces in the kernel); `digitsLE` below instantiates the fuel. -/
def digitsLEAux : Nat → Nat → List Nat
  | _, 0 => []
  | 0, _ + 1 => []
  | fuel + 1, n + 1 => (n + 1) % 10 :: digitsLEAux fuel ((n + 1) / 10)

/-- Little-endian decimal digits of a natural number (computable model of the
digit string produced by Rust's decimal formatting, least-significant first). -/
def digitsLE (n : Nat) : List Nat := digitsLEAux n n

/-- Big-endian decimal digit string of a value as Rust's `format!("{}")`
renders it (`0` renders as the single digit 0). -/
def digitsBEString (v : Nat) : List Nat :=
  if v = 0 then [0] else (digitsLE v).reverse

/-- Model of `get_digits_number` (`src/actions.rs` lines 173-175):
`(f32::log10(n) + 1_f32) as usize`.  For every `u16` input `n ≥ 1` this equals
the decimal digit count `⌊log10 n⌋ + 1` (all such `n` are exactly
representable in `f32` and a correctly rounded `log10` cannot cross an integer
boundary on this range); for `n = 0` the float cast of `-∞ + 1` saturates to
0.  Floating point itself is not shallowly embeddable; the embedding uses the
exact digit count. -/
def get_digits_number (n : Nat) : Nat :=
  if n = 0 then 0 else (digitsLE n).length

/-- Zero-padding of a digit string to the target width, as
`format!("{:0width$}", roll)` does (no truncation when already wider). -/
def padZeroTo (width : Nat) (s : List Nat) : List Nat :=
  List.replicate (width - s.length) 0 ++ s

/-- Numeric value denoted by a big-endian decimal digit string (the numeral
semantics a parse of the string would compute, before any range check). -/
def digitStringValue (s : List Nat) : Nat :=
  s.foldl (fun acc d => 10 * acc + d) 0

/-- Model of `result.parse::<u16>()` on a big-endian decimal digit string
(`src/actions.rs` line 166): `Ok` with the denoted value when it fits in a
`u16`, `Err(PosOverflow)` — here `none` — when it exceeds 65535.  (The
empty-string parse error is unreachable: `digitsBEString` is never empty.) -/
def parseDigitsBE (s : List Nat) : Option Nat :=
  if digitStringValue s < 65536 then some (digitStringValue s) else none

/-- The per-value body of `FlipFlop::flip` (`src/actions.rs` lines 151-172):
zero-pad the decimal rendering to `width` digits, reverse the digit string,
re-parse as `u16` and unwrap.  A `none` is the `unwrap()` panic on parse
overflow, which aborts the program. -/
def flipOne (width v : Nat) : Option Nat :=
  parseDigitsBE (padZeroTo width (digitsBEString v)).reverse

/-- The value-sequence traversal of `FlipFlop::flip`:
`rolls.iter().map(|roll| .. .unwrap()).collect()` panics at the first value
whose reversed form overflows `u16`; the whole traversal yields a result
exactly when every per-value flip does. -/
def flipValues (width : Nat) : List NumericRoll → Option (List NumericRoll)
  | [] => some []
  | v :: vs =>
    match flipOne width v, flipValues width vs with
    | some r, some rs => some (r :: rs)
    | _, _ => none

/-- `FlipFlop` for `NumericRolls` (`src/actions.rs` lines 151-172): the width
is computed from the dice's maximum possible value; `none` is the
`unwrap()` panic on a reversed value exceeding `u16::MAX`. -/
def NumericRolls.flip (self : NumericRolls) : Option NumericRolls :=
  match flipValues (get_digits_number self.dice.get_max_value) self.rolls with
  | none => none
  | some rs =>
    some { description := "flip(" ++ self.description ++ ")"
           dice := self.dice
           rolls := rs }

/-- The loop body of `Reroll::reroll` (`src/actions.rs` lines 102-126): each
value in the trigger list is replaced by appending the result of a fresh
`dice.roll(1, ..)` call (threading the generator index), other values pass
through.  `roll` stands for the partially applied generator capability
`|k, g| dice.roll(k, dicekind)` at generator index `g`. -/
def reroll_values {T : Type} [DecidableEq T] (roll : Nat → Nat → List T × Nat)
    (t : List T) : List T → Nat → List T × Nat
  | [], g => ([], g)
  | r :: rs, g =>
    if r ∈ t then
      let p := roll 1 g
      let q := reroll_values roll t rs p.2
      (p.1 ++ q.1, q.2)
    else
      let q := reroll_values roll t rs g
      (r :: q.1, q.2)

/-- Generator index reached after processing a prefix of the value list in
`reroll_values`: one single-value draw is consumed per trigger match. -/
def rerollStateAt {T : Type} [DecidableEq T] (roll : Nat → Nat → List T × Nat)
    (t : List T) : List T → Nat → Nat
  | [], g => g
  | r :: rs, g =>
    if r ∈ t then rerollStateAt roll t rs (roll 1 g).2
    else rerollStateAt roll t rs g

/-- `Reroll` for `NumericRolls` (`src/actions.rs` lines 102-126), with the
description accumulation. -/
def NumericRolls.reroll (om : Nat → Nat) (self : NumericRolls)
    (t : List NumericRoll) (g : Nat) : NumericRolls × Nat :=
  let p := reroll_values (rollNumeric om self.dice) t self.rolls g
  ({ description := self.description ++ " Reroll(" ++ joinVec "," (t.map toString) ++ ")"
     dice := self.dice
     rolls := p.1 }, p.2)

/-- `Reroll` for `FudgeRolls` (`src/actions.rs` lines 102-126). -/
def FudgeRolls.reroll (om : Nat → Nat) (self : FudgeRolls)
    (t : List FudgeRoll) (g : Nat) : FudgeRolls × Nat :=
  let p := reroll_values (rollFudge om self.dice) t self.rolls g
  ({ description := self.description ++ " Reroll(" ++ joinVec "," (t.map fudgeRollDisplay) ++ ")"
     dice := self.dice
     rolls := p.1 }, p.2)

/-- Count of the values that belong to the trigger list:
`rolls.iter().filter(|roll| explosion_values.contains(roll)).count()`
(`src/actions.rs` lines 256-259). -/
def matchCount {T : Type} [DecidableEq T] (evs l : List T) : Nat :=
  l.countP fun x => decide (x ∈ evs)

/-- The recursive `explode` helper (`src/actions.rs` lines 247-265).  The Rust
recursion is not structurally terminating, so the embedding takes a fuel
argument and returns `none` when the recursion exceeds it: a `none` for every
fuel is divergence of the source.  The match count is cast
`as DiceNumber` (`u8`) in the source, hence the `% 256`. -/
def explodeF {T : Type} [DecidableEq T] (roll : Nat → Nat → List T × Nat)
    (evs : List T) : Nat → List T → Nat → Option (List T × Nat)
  | _, [], g => some ([], g)
  | 0, _ :: _, _ => none
  | fuel + 1, r :: rs, g =>
    let p := roll (matchCount evs (r :: rs) % 256) g
    match explodeF roll evs fuel p.1 p.2 with
    | none => none
    | some q => some (r :: rs ++ q.1, q.2)

/-- The sequence of explosion batches: batch 0 is the starting value list,
batch `i+1` is drawn from the dice with the (u8-truncated) count of trigger
matches in batch `i`, threading the generator index. -/
def explodeBatch {T : Type} [DecidableEq T] (roll : Nat → Nat → List T × Nat)
    (evs rolls : List T) (g : Nat) : Nat → List T × Nat
  | 0 => (rolls, g)
  | i + 1 =>
    let p := explodeBatch roll evs rolls g i
    roll (matchCount evs p.1 % 256) p.2

/-- `Explode` for `NumericRolls` (`src/actions.rs` lines 229-245). -/
def NumericRolls.explode (om : Nat → Nat) (fuel : Nat) (self : NumericRolls)
    (evs : List NumericRoll) (g : Nat) : Option (NumericRolls × Nat) :=
  match explodeF (rollNumeric om self.dice) evs fuel self.rolls g with
  | none => none
  | some p =>
    some ({ description := self.description ++ " explode(" ++ joinVec "," (evs.map toString) ++ ")"
            dice := self.dice
            rolls := p.1 }, p.2)

/-- `Explode` for `FudgeRolls` (`src/actions.rs` lines 229-245). -/
def FudgeRolls.explode (om : Nat → Nat) (fuel : Nat) (self : FudgeRolls)
    (evs : List FudgeRoll) (g : Nat) : Option (FudgeRolls × Nat) :=
  match explodeF (rollFudge om self.dice) evs fuel self.rolls g with
  | none => none
  | some p =>
    some ({ description := self.description ++ " explode(" ++ joinVec "," (evs.map fudgeRollDisplay) ++ ")"
            dice := self.dice
            rolls := p.1 }, p.2)

/-- Stable ascending sort, the model of `Vec::sort` used by the keep/reroll
actions (`sorted.sort()`, `src/actions.rs` lines 319-320 and 376-377). -/
def sortAscending (rolls : List NumericRoll) : List NumericRoll :=
  List.insertionSort (· ≤ ·) rolls

/-- The parameter-error message of the keep actions (`src/actions.rs` lines
313-317 and 369-373). -/
def keepErrMsg (keep len : Nat) : String :=
  "Can't keep " ++ toString keep ++ " rolls because there are only " ++
    toString len ++ " available rolls."

/-- The parameter-error message of the reroll-best/worst actions
(`src/actions.rs` lines 398-402 and 443-447). -/
def rerollErrMsg (reroll len : Nat) : String :=
  "Can't reroll " ++ toString reroll ++ " rolls because there are only " ++
    toString len ++ " available rolls."

/-- `KeepBest` for `Vec<NumericRoll>` (`src/actions.rs` lines 310-326): error
when `keep` exceeds the length, otherwise sort ascending and skip the first
`len - keep` elements. -/
def keepBestVec (rolls : List NumericRoll) (keep : Nat) :
    Except Error (List NumericRoll) :=
  if keep > rolls.length then
    .error (Error.badActionParameter (keepErrMsg keep rolls.length))
  else
    .ok ((sortAscending rolls).drop (rolls.length - keep))

/-- `KeepWorst` for `Vec<NumericRoll>` (`src/actions.rs` lines 366-380): error
when `keep` exceeds the length, otherwise sort ascending and take the first
`keep` elements. -/
def keepWorstVec (rolls : List NumericRoll) (keep : Nat) :
    Except Error (List NumericRoll) :=
  if keep > rolls.length then
    .error (Error.badActionParameter (keepErrMsg keep rolls.length))
  else
    .ok ((sortAscending rolls).take keep)

/-- `KeepBest` for `NumericRolls` (`src/actions.rs` lines 327-335). -/
def NumericRolls.keep_best (self : NumericRolls) (keep : Nat) :
    Except Error NumericRolls :=
  match keepBestVec self.rolls keep with
  | .error e => .error e
  | .ok rs =>
    .ok { description := self.description ++ " KeepBest(" ++ toString keep ++ ")"
          dice := self.dice
          rolls := rs }

/-- `KeepWorst` for `NumericRolls` (`src/actions.rs` lines 381-389). -/
def NumericRolls.keep_worst (self : NumericRolls) (keep : Nat) :
    Except Error NumericRolls :=
  match keepWorstVec self.rolls keep with
  | .error e => .error e
  | .ok rs =>
    .ok { description := self.description ++ " KeepWorst(" ++ toString keep ++ ")"
          dice := self.dice
          rolls := rs }

/-- Wrapping `u8` subtraction: `self.rolls.len() as DiceNumber - reroll` in
the reroll-best/worst actions truncates the length to `u8` and subtracts in
`u8` (release-mode wrap on underflow). -/
def u8Sub (a b : Nat) : Nat := (a % 256 + 256 - b % 256) % 256

/-- `RerollBest` for `NumericRolls` (`src/actions.rs` lines 391-415): error
when `reroll` exceeds the length, otherwise keep the worst `len - reroll`
(u8 arithmetic) and append `reroll` fresh draws. -/
def NumericRolls.reroll_best (om : Nat → Nat) (self : NumericRolls)
    (reroll : Nat) (g : Nat) : Except Error (NumericRolls × Nat) :=
  if reroll > self.rolls.length then
    .error (Error.badActionParameter (rerollErrMsg reroll self.rolls.length))
  else
    match keepWorstVec self.rolls (u8Sub self.rolls.length reroll) with
    | .error e => .error e
    | .ok kept =>
      let p := rollNumeric om self.dice reroll g
      .ok ({ description := self.description ++ " RerollBest(" ++ toString reroll ++ ")"
             dice := self.dice
             rolls := kept ++ p.1 }, p.2)

/-- `RerollWorst` for `NumericRolls` (`src/actions.rs` lines 436-461): error
when `reroll` exceeds the length, otherwise keep the best `len - reroll`
(u8 arithmetic) and append `reroll` fresh draws. -/
def NumericRolls.reroll_worst (om : Nat → Nat) (self : NumericRolls)
    (reroll : Nat) (g : Nat) : Except Error (NumericRolls × Nat) :=
  if reroll > self.rolls.length then
    .error (Error.badActionParameter (rerollErrMsg reroll self.rolls.length))
  else
    match keepBestVec self.rolls (u8Sub self.rolls.length reroll) with
    | .error e => .error e
    | .ok kept =>
      let p := rollNumeric om self.dice reroll g
      .ok ({ description := self.description ++ " RerollWorst(" ++ toString reroll ++ ")"
             dice := self.dice
             rolls := kept ++ p.1 }, p.2)

/-- `TotalSum::total` for `Vec<NumericRolls>` (`src/actions.rs` lines
273-298): one aggregate entry whose single value is the `u16` sum of every
value of every contributing roll (0 for an empty list), whose description
lists each contributing sub-total, and whose dice is the
`AggregationResult` marker. -/
def totalSum (rollsList : List NumericRolls) : NumericRolls :=
  { description :=
      "Detailed rolls\t: " ++
        joinVec " + "
          (rollsList.map fun roll =>
            "(" ++ roll.description ++ ":" ++ toString (sum16 roll.rolls) ++ ")") ++
        "\nTOTAL SUM \t"
    dice := .AggregationResult
    rolls := [match rollsList.length with
              | 0 => 0
              | _ + 1 => sum16 (rollsList.map fun roll => roll.rolls).flatten] }

/-- `Apply` for `NumericRolls` (`src/actions.rs` lines 502-526).  The result
is wrapped in `Option` for the two executions of the source that return
nothing at all: `none` means the `Explode` recursion exceeded the fuel
(divergence) or the `FlipFlop` parse-overflow `unwrap()` panicked; every other
branch is `some`. -/
def applyNumeric (om : Nat → Nat) (fuel : Nat) (self : NumericRolls)
    (action : Action) (g : Nat) : Option (Except Error (NumericRolls × Nat)) :=
  match action with
  | .Sum => some (.ok (self.sum, g))
  | .MultiplyBy factor => some (.ok (self.multiply factor, g))
  | .Explode evs =>
    match NumericRolls.explode om fuel self evs g with
    | none => none
    | some p => some (.ok p)
  | .FlipFlop =>
    match NumericRolls.flip self with
    | none => none
    | some r => some (.ok (r, g))
  | .RerollNumeric t => some (.ok (NumericRolls.reroll om self t g))
  | .RerollFudge _ =>
    some (.error (Error.incompatible action.toDisplayString "numeric roll"))
  | .ExplodeFudge _ =>
    some (.error (Error.incompatible action.toDisplayString "numeric roll"))
  | .Total =>
    some (.error (Error.incompatible action.toDisplayString "numeric roll"))
  | .KeepBest keep => some ((self.keep_best keep).map fun r => (r, g))
  | .KeepWorst keep => some ((self.keep_worst keep).map fun r => (r, g))
  | .RerollBest keep => some (NumericRolls.reroll_best om self keep g)
  | .RerollWorst keep => some (NumericRolls.reroll_worst om self keep g)

/-- `Apply` for `FudgeRolls` (`src/actions.rs` lines 528-552). -/
def applyFudge (om : Nat → Nat) (fuel : Nat) (self : FudgeRolls)
    (action : Action) (g : Nat) : Option (Except Error (FudgeRolls × Nat)) :=
  match action with
  | .ExplodeFudge evs =>
    match FudgeRolls.explode om fuel self evs g with
    | none => none
    | some p => some (.ok p)
  | .RerollFudge t => some (.ok (FudgeRolls.reroll om self t g))
  | .Sum | .Total | .MultiplyBy _ | .FlipFlop | .RerollNumeric _
  | .KeepBest _ | .KeepWorst _ | .RerollBest _ | .RerollWorst _ | .Explode _ =>
    some (.error (Error.incompatible action.toDisplayString "fudge roll"))

/-- Action-token grammar rules of the parser, as the branches of
`parse_action` in `src/io/read.rs` lines 235-270 distinguish them, with the
payload already extracted by the sub-rule parsers (`parse_positive_int`,
`parse_reroll_action`, `parse_explode_action`).  The `action_concat` rule of
that revision targets an `Action::Concat` variant that does not exist in the
`src/actions.rs` action enum and corresponds to no spec token; it is outside
every claim and is omitted. -/
inductive ActionRule
  | action_sum
  | action_flip
  | action_total
  | action_mult (value : Nat)
  | action_reroll (numValues : List NumericRoll) (fudgeValues : List FudgeRoll)
  | action_explode (numValues : List NumericRoll) (fudgeValues : List FudgeRoll)
  | action_keep_best (n : Nat)
  | action_keep_worst (n : Nat)
  | action_reroll_best (n : Nat)
  | action_reroll_worst (n : Nat)
deriving DecidableEq

/-- Model of `parse_action` (`src/io/read.rs` lines 235-270), returning the
action pushed for the matched rule (each branch pushes exactly one action).
The reroll/explode branches are `parse_reroll_action` and
`parse_explode_action` (lines 272-314): numeric variant when at least one
numeric value was collected, fudge variant otherwise. -/
def parse_action : ActionRule → Action
  | .action_sum => Action.Total
  | .action_flip => Action.FlipFlop
  | .action_total => Action.Total
  | .action_mult v => Action.MultiplyBy v
  | .action_reroll numValues fudgeValues =>
    match numValues.length with
    | _ + 1 => Action.RerollNumeric numValues
    | 0 => Action.RerollFudge fudgeValues
  | .action_explode numValues fudgeValues =>
    match numValues.length with
    | _ + 1 => Action.Explode numValues
    | 0 => Action.ExplodeFudge fudgeValues
  | .action_keep_best n => Action.KeepBest n
  | .action_keep_worst n => Action.KeepWorst n
  | .action_reroll_best n => Action.RerollBest n
  | .action_reroll_worst n => Action.RerollWorst n

/-- Modelled from the spec: the pest grammar file (`roll_request.pest`) is not
under `src/`; the spec's action-token list (section 4.3) names the keyword
tokens, which the grammar maps to the correspondingly named rules.  Only the
bare keyword tokens are needed by the claims. -/
def actionRuleOfKeyword (tok : String) : Option ActionRule :=
  if tok = "sum" then some .action_sum
  else if tok = "flip" then some .action_flip
  else if tok = "total" then some .action_total
  else none

/-- The numeric-only actions as the claims enumerate them: every variant
except the two fudge-only ones. -/
def numericOnlyAction : Action → Bool
  | .RerollFudge _ => false
  | .ExplodeFudge _ => false
  | _ => true

/-- The fudge-only actions: `RerollFudge` and `ExplodeFudge`. -/
def fudgeOnlyAction : Action → Bool
  | .RerollFudge _ => true
  | .ExplodeFudge _ => true
  | _ => false

/-! Helper lemmas. -/

lemma flatten_replicate_length {T : Type} (k : Nat) (l : List T) :
    (List.replicate k l).flatten.length = k * l.length := by
  induction k with
  | zero => simp
  | succ k ih =>
    rw [List.replicate_succ, List.flatten_cons, List.length_append, ih, Nat.succ_mul]
    omega

lemma flatten_replicate_getElem {T : Type} (k : Nat) (l : List T) (i : Nat)
    (h : i < k * l.length) :
    ((List.replicate k l).flatten)[i]? = l[i % l.length]? := by
  induction k generalizing i with
  | zero => omega
  | succ k ih =>
    rw [List.replicate_succ, List.flatten_cons]
    by_cases hi : i < l.length
    · rw [List.getElem?_append_left hi, Nat.mod_eq_of_lt hi]
    · push_neg at hi
      rw [List.getElem?_append_right hi]
      have h2 : i - l.length < k * l.length := by
        have hsm : (k + 1) * l.length = k * l.length + l.length := by ring
        omega
      rw [ih _ h2]
      congr 1
      conv_rhs => rw [show i = l.length + (i - l.length) by omega]
      rw [Nat.add_mod_left]

lemma foldl_add16_eq (l : List Nat) : ∀ acc, l.foldl add16 (acc % 65536) = (acc + l.sum) % 65536 := by
  induction l with
  | nil => intro acc; simp
  | cons b l ih =>
    intro acc
    rw [List.foldl_cons]
    have hb : add16 (acc % 65536) b = (acc + b) % 65536 := by
      unfold add16; rw [Nat.mod_add_mod]
    rw [hb, ih (acc + b), List.sum_cons, Nat.add_assoc]

lemma sum16_eq_mod (l : List Nat) : sum16 l = l.sum % 65536 := by
  have h := foldl_add16_eq l 0
  simpa [sum16] using h

/-! Claim theorems. -/

/-- C4: for every non-empty value sequence and every roll count `n`, rolling a
repeating dice returns exactly the first `n` elements of the sequence repeated
cyclically (length `n`, and position `i` holds `seq[i % len]`), for every `n`
relative to the sequence length, including `n = 0`. -/
theorem repeating_dice_cyclic {T : Type} (values : List T) (n : Nat)
    (h : values ≠ []) :
    (roll_repeating n values).length = n ∧
    ∀ i, i < n → (roll_repeating n values)[i]? = values[i % values.length]? := by
  have hL : 0 < values.length := List.length_pos.mpr h
  have hbound : n ≤ (n / values.length + 1) * values.length := by
    have h1 := Nat.div_add_mod n values.length
    have h2 := Nat.mod_lt n hL
    have h3 : (n / values.length + 1) * values.length
        = values.length * (n / values.length) + values.length := by ring
    omega
  constructor
  · rw [roll_repeating, List.length_take, flatten_replicate_length]
    exact min_eq_left hbound
  · intro i hi
    rw [roll_repeating, List.getElem?_take, if_pos hi]
    exact flatten_replicate_getElem _ _ _ (lt_of_lt_of_le hi hbound)

/-- Witness for C4 at the spec's own example: repeating `[1,2,3]` for count 8
gives `1,2,3,1,2,3,1,2` (position 7 holds `seq[7 % 3] = 2`). -/
theorem repeating_dice_cyclic_witness :
    (roll_repeating 8 ([1,2,3] : List Nat)).length = 8 ∧
    (roll_repeating 8 ([1,2,3] : List Nat))[7]? = some 2 := by
  have h := repeating_dice_cyclic ([1,2,3] : List Nat) 8 (by decide)
  exact ⟨h.1, (h.2 7 (by decide)).trans (by decide)⟩

/-- C9: applying `Action::Total` through the per-request `Apply` interface on
numeric rolls returns the `IncompatibleAction` error (`src/actions.rs` line
514 groups `Total` with the fudge-only variants in the error arm); `Total` is
only available as a session-wide operation. -/
theorem total_rejected_by_request_apply (om : Nat → Nat) (fuel : Nat)
    (self : NumericRolls) (g : Nat) :
    applyNumeric om fuel self Action.Total g =
      some (.error (Error.incompatible "Total" "numeric roll")) := rfl

/-- C2: the parser's rule for the `sum` action token pushes `Action::Total`
(`src/io/read.rs` line 240), not the per-request `Action::Sum`; the
per-request `Sum` is the action that collapses a request's values to their
one-element arithmetic sum. This evaluates the code at the failing token. -/
theorem sum_token_parses_to_total :
    actionRuleOfKeyword "sum" = some ActionRule.action_sum ∧
    parse_action ActionRule.action_sum = Action.Total ∧
    (decide (parse_action ActionRule.action_sum = Action.Sum)) = false ∧
    (NumericRolls.sum ⟨"3D6", .NumberedDice 6, [1, 2, 3]⟩).rolls = [6] :=
  ⟨rfl, rfl, by decide, rfl⟩

/-- C10: numeric roll values and the `MultiplyBy`/`Sum` arithmetic are `u16`:
products and sums equal the mathematical result exactly when it fits below
65536, and a constant roll of 1000 multiplied by 100 wraps to 34464 instead of
the mathematical 100000. -/
theorem numeric_arithmetic_wraps_u16 :
    (∀ a b : Nat, mul16 a b = a * b ↔ a * b < 65536) ∧
    (∀ l : List Nat, sum16 l = l.sum % 65536) ∧
    (∀ l : List Nat, sum16 l = l.sum ↔ l.sum < 65536) ∧
    (NumericRolls.multiply ⟨"+1000", .ConstDice 1000, [1000]⟩ 100).rolls = [34464] ∧
    (1000 * 100 = 100000) ∧ (34464 : Nat) ≠ 100000 := by
  have hmod : ∀ m : Nat, m % 65536 = m ↔ m < 65536 := fun m =>
    ⟨fun hm => hm ▸ Nat.mod_lt m (by norm_num), Nat.mod_eq_of_lt⟩
  refine ⟨fun a b => hmod (a * b), sum16_eq_mod, fun l => ?_, rfl, rfl, by decide⟩
  rw [sum16_eq_mod]
  exact hmod _

/-- Witness for C10: an in-range product is computed exactly. -/
theorem numeric_arithmetic_wraps_u16_witness : mul16 50 100 = 50 * 100 :=
  (numeric_arithmetic_wraps_u16.1 50 100).mpr (by norm_num)

lemma u8Sub_le_of_le (a b : Nat) (hb : b ≤ a) : u8Sub a b ≤ a := by
  unfold u8Sub
  omega

/-- C5: each of the keep/reroll best/worst actions returns a
`BadActionParameter` error exactly when the requested count exceeds the number
of available values; otherwise `KeepBest` returns the last `n` elements of the
ascending-sorted sequence and `KeepWorst` the first `n` (each of length `n`),
and `n = 0` succeeds with an empty value list. -/
theorem keep_reroll_bounds (self : NumericRolls) (k : Nat) (om : Nat → Nat) (g : Nat) :
    ((∃ msg, keepBestVec self.rolls k = .error ⟨.BadActionParameter msg⟩) ↔
        k > self.rolls.length) ∧
    ((∃ msg, keepWorstVec self.rolls k = .error ⟨.BadActionParameter msg⟩) ↔
        k > self.rolls.length) ∧
    ((∃ msg, NumericRolls.reroll_best om self k g = .error ⟨.BadActionParameter msg⟩) ↔
        k > self.rolls.length) ∧
    ((∃ msg, NumericRolls.reroll_worst om self k g = .error ⟨.BadActionParameter msg⟩) ↔
        k > self.rolls.length) ∧
    (k ≤ self.rolls.length →
      keepBestVec self.rolls k = .ok ((sortAscending self.rolls).drop (self.rolls.length - k)) ∧
      keepWorstVec self.rolls k = .ok ((sortAscending self.rolls).take k) ∧
      ((sortAscending self.rolls).drop (self.rolls.length - k)).length = k ∧
      ((sortAscending self.rolls).take k).length = k) ∧
    (keepBestVec self.rolls 0 = .ok [] ∧ keepWorstVec self.rolls 0 = .ok []) := by
  have hlen : (sortAscending self.rolls).length = self.rolls.length :=
    List.length_insertionSort _ _
  have hko : ∀ m, ¬ m > self.rolls.length →
      keepBestVec self.rolls m = .ok ((sortAscending self.rolls).drop (self.rolls.length - m)) := by
    intro m hm
    rw [keepBestVec, if_neg hm]
  have hwo : ∀ m, ¬ m > self.rolls.length →
      keepWorstVec self.rolls m = .ok ((sortAscending self.rolls).take m) := by
    intro m hm
    rw [keepWorstVec, if_neg hm]
  refine ⟨?_, ?_, ?_, ?_, ?_, ?_⟩
  · constructor
    · rintro ⟨msg, hmsg⟩
      by_contra hk
      rw [hko k hk] at hmsg
      exact Except.noConfusion hmsg
    · intro hk
      exact ⟨keepErrMsg k self.rolls.length, by rw [keepBestVec, if_pos hk]; rfl⟩
  · constructor
    · rintro ⟨msg, hmsg⟩
      by_contra hk
      rw [hwo k hk] at hmsg
      exact Except.noConfusion hmsg
    · intro hk
      exact ⟨keepErrMsg k self.rolls.length, by rw [keepWorstVec, if_pos hk]; rfl⟩
  · constructor
    · rintro ⟨msg, hmsg⟩
      by_contra hk
      have hsub : ¬ u8Sub self.rolls.length k > self.rolls.length :=
        not_lt.mpr (u8Sub_le_of_le _ _ (not_lt.mp hk))
      rw [NumericRolls.reroll_best, if_neg hk, hwo _ hsub] at hmsg
      exact Except.noConfusion hmsg
    · intro hk
      exact ⟨rerollErrMsg k self.rolls.length, by rw [NumericRolls.reroll_best, if_pos hk]; rfl⟩
  · constructor
    · rintro ⟨msg, hmsg⟩
      by_contra hk
      have hsub : ¬ u8Sub self.rolls.length k > self.rolls.length :=
        not_lt.mpr (u8Sub_le_of_le _ _ (not_lt.mp hk))
      rw [NumericRolls.reroll_worst, if_neg hk, hko _ hsub] at hmsg
      exact Except.noConfusion hmsg
    · intro hk
      exact ⟨rerollErrMsg k self.rolls.length, by rw [NumericRolls.reroll_worst, if_pos hk]; rfl⟩
  · intro hk
    refine ⟨hko k (not_lt.mpr hk), hwo k (not_lt.mpr hk), ?_, ?_⟩
    · rw [List.length_drop, hlen]; omega
    · rw [List.length_take, hlen]; exact min_eq_left hk
  · constructor
    · rw [hko 0 (by omega), Nat.sub_zero]
      congr 1
      rw [← hlen]
      exact List.drop_length _
    · rw [hwo 0 (by omega)]
      rfl

/-- Witness for C5 on the test vector of `src/actions.rs` (`transform_keep_best`):
keeping 2 of `[1,5,3,2,5]` succeeds with the top two sorted values, keeping 8
fails with a parameter error, keeping 0 yields the empty list. -/
theorem keep_reroll_bounds_witness :
    keepBestVec [1, 5, 3, 2, 5] 2 = .ok [5, 5] ∧
    keepWorstVec [1, 5, 3, 2, 5] 2 = .ok [1, 2] ∧
    (∃ msg, keepBestVec [1, 5, 3, 2, 5] 8 = .error ⟨.BadActionParameter msg⟩) ∧
    keepBestVec [1, 5, 3, 2, 5] 0 = .ok [] := by
  have h2 := keep_reroll_bounds ⟨"", .ConstDice 1, [1, 5, 3, 2, 5]⟩ 2 (fun _ => 0) 0
  have h8 := keep_reroll_bounds ⟨"", .ConstDice 1, [1, 5, 3, 2, 5]⟩ 8 (fun _ => 0) 0
  refine ⟨((h2.2.2.2.2.1 (by decide)).1).trans (by rfl),
          ((h2.2.2.2.2.1 (by decide)).2.1).trans (by rfl),
          h8.1.mpr (by decide),
          (h2.2.2.2.2.2).1⟩

lemma digitsLEAux_eq (fuel : Nat) : ∀ n, n ≤ fuel → digitsLEAux fuel n = Nat.digits 10 n := by
  induction fuel with
  | zero =>
    intro n hn
    have : n = 0 := by omega
    subst this
    simp [digitsLEAux]
  | succ fuel ih =>
    intro n hn
    match n with
    | 0 => simp [digitsLEAux]
    | m + 1 =>
      have hdiv : (m + 1) / 10 ≤ fuel := by
        have hlt : (m + 1) / 10 < m + 1 := Nat.div_lt_self (Nat.succ_pos m) (by norm_num)
        omega
      rw [digitsLEAux, ih ((m + 1) / 10) hdiv,
          Nat.digits_def' (by norm_num : (1 : ℕ) < 10) (Nat.succ_pos m)]

lemma digitsLE_eq (n : Nat) : digitsLE n = Nat.digits 10 n :=
  digitsLEAux_eq n n le_rfl

lemma digitStringValue_shift (l : List Nat) :
    ∀ acc, l.foldl (fun a d => 10 * a + d) acc =
      Nat.ofDigits 10 l.reverse + acc * 10 ^ l.length := by
  induction l with
  | nil => intro acc; simp
  | cons d l ih =>
    intro acc
    rw [List.foldl_cons, ih, List.reverse_cons, Nat.ofDigits_append,
        List.length_reverse, List.length_cons, Nat.ofDigits_singleton]
    ring

lemma digitStringValue_eq (l : List Nat) :
    digitStringValue l = Nat.ofDigits 10 l.reverse := by
  have h := digitStringValue_shift l 0
  simpa [digitStringValue] using h

lemma ofDigits_replicate_zero (k : Nat) :
    Nat.ofDigits 10 (List.replicate k 0) = 0 := by
  induction k with
  | zero => simp
  | succ k ih => rw [List.replicate_succ, Nat.ofDigits_cons, ih]

lemma digitStringValue_flip (w v : Nat) :
    digitStringValue ((padZeroTo w (digitsBEString v)).reverse)
      = Nat.ofDigits 10 (Nat.digits 10 v).reverse *
        10 ^ (w - (Nat.digits 10 v).length) := by
  by_cases hv : v = 0
  · subst hv
    rw [digitsBEString, if_pos rfl, padZeroTo, digitStringValue_eq,
        List.reverse_reverse]
    have h1 : List.replicate (w - ([0] : List Nat).length) 0 ++ [0]
        = List.replicate (w - 1 + 1) 0 := (List.replicate_succ' (w - 1) 0).symm
    rw [h1, ofDigits_replicate_zero]
    simp
  · rw [digitsBEString, if_neg hv, digitsLE_eq, padZeroTo,
        digitStringValue_eq, List.reverse_reverse, Nat.ofDigits_append,
        ofDigits_replicate_zero, List.length_replicate, List.length_reverse]
    ring

lemma flipOne_formula (w v : Nat) :
    flipOne w v =
      if Nat.ofDigits 10 (Nat.digits 10 v).reverse *
          10 ^ (w - (Nat.digits 10 v).length) < 65536
      then some (Nat.ofDigits 10 (Nat.digits 10 v).reverse *
          10 ^ (w - (Nat.digits 10 v).length))
      else none := by
  rw [flipOne, parseDigitsBE, digitStringValue_flip]

lemma flipValues_of_forall (width : Nat) (f : NumericRoll → NumericRoll) :
    ∀ l : List NumericRoll, (∀ v ∈ l, flipOne width v = some (f v)) →
      flipValues width l = some (l.map f) := by
  intro l
  induction l with
  | nil => intro _; rfl
  | cons v vs ih =>
    intro h
    rw [flipValues, h v (List.mem_cons_self v vs), ih fun a ha => h a (List.mem_cons_of_mem v ha)]
    rfl

/-- C7 counterexample to the claim as stated, at an explicit input inside its
universal scope: on a dice whose maximum value is 65535 (digit width 5), the
in-range roll 9 pads to `00009`, reverses to `90000`, and the claimed
re-parsed integer is 90000 — but 90000 exceeds `u16::MAX`, so the program's
`parse::<u16>().unwrap()` (`src/actions.rs` line 166) panics and flip produces
no result at all. -/
theorem flipflop_claim_counterexample :
    get_digits_number (NumericDice.NumberedDice 65535).get_max_value = 5 ∧
    digitStringValue ((padZeroTo 5 (digitsBEString 9)).reverse) = 90000 ∧
    flipOne 5 9 = none ∧
    NumericRolls.flip ⟨"D65535", .NumberedDice 65535, [9]⟩ = none := by
  decide

/-- C7 (amended): the digit width equals `⌊log10 max⌋ + 1`; each per-value
flip yields the integer obtained by zero-padding `v`'s decimal rendering to
the width, reversing and re-parsing (equivalently the reversed-digit value of
`v` scaled by `10 ^ (width - digit count of v)`) whenever that integer fits in
a `u16`, and is the `unwrap()` panic otherwise; when every value's reversed
form fits, flip maps the whole roll result accordingly; a D100 roll of 1
becomes 100. -/
theorem flipflop_reverses_padded_decimal (self : NumericRolls) :
    (self.dice.get_max_value ≠ 0 →
      get_digits_number self.dice.get_max_value =
        Nat.log 10 self.dice.get_max_value + 1) ∧
    (∀ w v, flipOne w v =
      if Nat.ofDigits 10 (Nat.digits 10 v).reverse *
          10 ^ (w - (Nat.digits 10 v).length) < 65536
      then some (Nat.ofDigits 10 (Nat.digits 10 v).reverse *
          10 ^ (w - (Nat.digits 10 v).length))
      else none) ∧
    ((∀ v ∈ self.rolls,
        Nat.ofDigits 10 (Nat.digits 10 v).reverse *
          10 ^ (get_digits_number self.dice.get_max_value - (Nat.digits 10 v).length)
          < 65536) →
      NumericRolls.flip self = some
        { description := "flip(" ++ self.description ++ ")"
          dice := self.dice
          rolls := self.rolls.map fun v =>
            Nat.ofDigits 10 (Nat.digits 10 v).reverse *
              10 ^ (get_digits_number self.dice.get_max_value - (Nat.digits 10 v).length) }) ∧
    NumericRolls.flip ⟨"D100", .NumberedDice 100, [1]⟩ =
      some ⟨"flip(D100)", .NumberedDice 100, [100]⟩ := by
  refine ⟨?_, flipOne_formula, ?_, by decide⟩
  · intro h
    rw [get_digits_number, if_neg h, digitsLE_eq]
    exact Nat.digits_len 10 _ (by norm_num) h
  · intro hall
    rw [NumericRolls.flip, flipValues_of_forall _ _ self.rolls ?_]
    intro v hv
    rw [flipOne_formula, if_pos (hall v hv)]

/-- Witness for C7 at a D100 roll result with value 1 (reversed form 100 fits
in a `u16`). -/
theorem flipflop_reverses_padded_decimal_witness :
    get_digits_number (NumericDice.NumberedDice 100).get_max_value =
      Nat.log 10 (NumericDice.NumberedDice 100).get_max_value + 1 ∧
    NumericRolls.flip ⟨"D100", .NumberedDice 100, [1]⟩ = some
      { description := "flip(" ++ "D100" ++ ")"
        dice := .NumberedDice 100
        rolls := [1].map fun v =>
          Nat.ofDigits 10 (Nat.digits 10 v).reverse *
            10 ^ (get_digits_number (NumericDice.NumberedDice 100).get_max_value
              - (Nat.digits 10 v).length) } := by
  have hd1 : Nat.digits 10 1 = [1] := (digitsLE_eq 1).symm.trans rfl
  have h := flipflop_reverses_padded_decimal ⟨"D100", .NumberedDice 100, [1]⟩
  refine ⟨h.1 (by decide), h.2.2.1 ?_⟩
  intro v hv
  have hv1 : v = 1 := by simpa using hv
  subst hv1
  rw [hd1]
  decide

lemma msg_carries_action (name rt : String) :
    name.data <:+: (incompatibleMsg name rt).data := by
  refine ⟨("Action " ++ "\"").data,
          ("\"" ++ " not supported by roll type " ++ rustDebugStr rt).data, ?_⟩
  simp [incompatibleMsg, rustDebugStr, String.data_append, List.append_assoc]

lemma msg_carries_rolltype (name rt : String) :
    rt.data <:+: (incompatibleMsg name rt).data := by
  refine ⟨("Action " ++ rustDebugStr name ++ " not supported by roll type " ++ "\"").data,
          ("\"" : String).data, ?_⟩
  simp [incompatibleMsg, rustDebugStr, String.data_append, List.append_assoc]

/-- C1: applying any numeric-only action (`Sum`, `Total`, `MultiplyBy`,
`FlipFlop`, `RerollNumeric`, `Explode`, `KeepBest`, `KeepWorst`, `RerollBest`,
`RerollWorst`) to a fudge roll result, or a fudge-only action (`RerollFudge`,
`ExplodeFudge`) to a numeric roll result, returns the `IncompatibleAction`
error whose message carries the action's display name and the roll-type name;
`apply` takes the roll result by shared reference and the error arm returns no
new rolls, so the roll result is untouched (in the embedding the whole output
is exactly the error). -/
theorem incompatible_action_error (a : Action) (om : Nat → Nat) (fuel g : Nat)
    (nr : NumericRolls) (fr : FudgeRolls) :
    (numericOnlyAction a = true →
      applyFudge om fuel fr a g =
        some (.error (Error.incompatible a.toDisplayString "fudge roll")) ∧
      (a.toDisplayString).data <:+: (incompatibleMsg a.toDisplayString "fudge roll").data ∧
      ("fudge roll" : String).data <:+: (incompatibleMsg a.toDisplayString "fudge roll").data) ∧
    (fudgeOnlyAction a = true →
      applyNumeric om fuel nr a g =
        some (.error (Error.incompatible a.toDisplayString "numeric roll")) ∧
      (a.toDisplayString).data <:+: (incompatibleMsg a.toDisplayString "numeric roll").data ∧
      ("numeric roll" : String).data <:+: (incompatibleMsg a.toDisplayString "numeric roll").data) := by
  constructor
  · intro h
    refine ⟨?_, msg_carries_action _ _, msg_carries_rolltype _ _⟩
    cases a <;> first | rfl | simp [numericOnlyAction] at h
  · intro h
    refine ⟨?_, msg_carries_action _ _, msg_carries_rolltype _ _⟩
    cases a <;> first | rfl | simp [fudgeOnlyAction] at h

/-- Witness for C1: `Sum` on a fudge roll result and `RerollFudge` on a
numeric roll result are both rejected with the message naming them. -/
theorem incompatible_action_error_witness :
    applyFudge (fun _ => 0) 0 ⟨"F", .FudgeDice, [.Plus]⟩ Action.Sum 0 =
      some (.error (Error.incompatible "Sum" "fudge roll")) ∧
    applyNumeric (fun _ => 0) 0 ⟨"D6", .NumberedDice 6, [3]⟩ (Action.RerollFudge []) 0 =
      some (.error (Error.incompatible "RerollFudge([])" "numeric roll")) := by
  have h1 := (incompatible_action_error Action.Sum (fun _ => 0) 0 0
      ⟨"D6", .NumberedDice 6, [3]⟩ ⟨"F", .FudgeDice, [.Plus]⟩).1 (by decide)
  have h2 := (incompatible_action_error (Action.RerollFudge []) (fun _ => 0) 0 0
      ⟨"D6", .NumberedDice 6, [3]⟩ ⟨"F", .FudgeDice, [.Plus]⟩).2 (by decide)
  exact ⟨h1.1, h2.1⟩

lemma joinVec_data_mem (sep : String) (l : List String) :
    ∀ x ∈ l, x.data <:+: (joinVec sep l).data := by
  induction l with
  | nil => intro x hx; simp at hx
  | cons a rest ih =>
    intro x hx
    rcases List.mem_cons.mp hx with hxa | hxr
    · subst hxa
      cases rest with
      | nil => exact List.infix_rfl
      | cons b bs =>
        refine ⟨[], (sep ++ joinVec sep (b :: bs)).data, ?_⟩
        simp [joinVec, String.data_append, List.append_assoc]
    · cases rest with
      | nil => simp at hxr
      | cons b bs =>
        obtain ⟨s, t, hst⟩ := ih x hxr
        refine ⟨(a ++ sep).data ++ s, t, ?_⟩
        have hj : joinVec sep (a :: b :: bs) = a ++ sep ++ joinVec sep (b :: bs) := rfl
        rw [hj, String.data_append, String.data_append, ← hst]
        simp [List.append_assoc]

/-- C8: `total` over a list of numeric roll results returns a single
aggregate entry whose one value is the (u16) sum of all values of all
contributing results, carries the `AggregationResult` dice marker, documents
each contributing sub-total inside its description, and yields the value 0 for
the empty list (it is a total function: no error is possible). -/
theorem total_aggregates (rollsList : List NumericRolls) :
    (totalSum rollsList).rolls = [sum16 (rollsList.map fun r => r.rolls).flatten] ∧
    (totalSum ([] : List NumericRolls)).rolls = [0] ∧
    (totalSum rollsList).dice = NumericDice.AggregationResult ∧
    ∀ r ∈ rollsList,
      ("(" ++ r.description ++ ":" ++ toString (sum16 r.rolls) ++ ")").data <:+:
        (totalSum rollsList).description.data := by
  refine ⟨?_, rfl, rfl, ?_⟩
  · cases rollsList with
    | nil => rfl
    | cons a rest => rfl
  · intro r hr
    have hpart := joinVec_data_mem " + "
      (rollsList.map fun roll =>
        "(" ++ roll.description ++ ":" ++ toString (sum16 roll.rolls) ++ ")") _
      (List.mem_map_of_mem _ hr)
    obtain ⟨s, t, hst⟩ := hpart
    refine ⟨("Detailed rolls\t: " : String).data ++ s, t ++ ("\nTOTAL SUM \t" : String).data, ?_⟩
    have hdesc : (totalSum rollsList).description
        = "Detailed rolls\t: " ++
            joinVec " + "
              (rollsList.map fun roll =>
                "(" ++ roll.description ++ ":" ++ toString (sum16 roll.rolls) ++ ")") ++
            "\nTOTAL SUM \t" := rfl
    rw [hdesc]
    conv_rhs => rw [String.data_append, String.data_append, ← hst]
    simp [List.append_assoc]

/-- Witness for C8: one contributing roll with values `[2, 3]` gives the
aggregate value 5 and a description documenting the sub-total `(a:5)`. -/
theorem total_aggregates_witness :
    (totalSum [⟨"a", .ConstDice 2, [2, 3]⟩]).rolls = [5] ∧
    ("(a:5)" : String).data <:+: (totalSum [⟨"a", .ConstDice 2, [2, 3]⟩]).description.data := by
  have h := total_aggregates [⟨"a", .ConstDice 2, [2, 3]⟩]
  exact ⟨h.1.trans (by decide), h.2.2.2 ⟨"a", .ConstDice 2, [2, 3]⟩ (by simp)⟩

/-- C6: reroll keeps the sequence length; a position whose original value is
outside the trigger set keeps its value; a position whose original value is in
the trigger set holds the single fresh draw made at that point of the
left-to-right pass (the generator index having advanced once per earlier
match).  The replacement is the drawn value unconditionally — the drawn value
is never compared against the trigger set, so there is no cascading. -/
theorem reroll_pointwise {T : Type} [DecidableEq T] (roll : Nat → Nat → List T × Nat)
    (t : List T) (hwf1 : ∀ g, ((roll 1 g).1).length = 1) :
    ∀ (rolls : List T) (g : Nat),
      (reroll_values roll t rolls g).1.length = rolls.length ∧
      ∀ i v, rolls[i]? = some v →
        (reroll_values roll t rolls g).1[i]? =
          if v ∈ t then ((roll 1 (rerollStateAt roll t (List.take i rolls) g)).1)[0]?
          else some v := by
  intro rolls
  induction rolls with
  | nil =>
    intro g
    refine ⟨rfl, ?_⟩
    intro i v hv
    simp at hv
  | cons r rs ih =>
    intro g
    by_cases hrt : r ∈ t
    · have hcons : reroll_values roll t (r :: rs) g =
          ((roll 1 g).1 ++ (reroll_values roll t rs (roll 1 g).2).1,
           (reroll_values roll t rs (roll 1 g).2).2) := by
        simp [reroll_values, hrt]
      have hlen1 : ((roll 1 g).1).length = 1 := hwf1 g
      constructor
      · rw [hcons]
        simp [List.length_append, hlen1, (ih (roll 1 g).2).1]
        omega
      · intro i v hv
        rw [hcons]
        match i with
        | 0 =>
          have hv0 : r = v := by simpa using hv
          subst hv0
          rw [if_pos hrt, List.getElem?_append_left (by omega)]
          rfl
        | i + 1 =>
          have hvi : rs[i]? = some v := by simpa using hv
          rw [List.getElem?_append_right (by omega)]
          have hidx : i + 1 - ((roll 1 g).1).length = i := by omega
          rw [hidx, (ih (roll 1 g).2).2 i v hvi]
          have hstate : rerollStateAt roll t (List.take (i + 1) (r :: rs)) g
              = rerollStateAt roll t (List.take i rs) (roll 1 g).2 := by
            rw [List.take_succ_cons]
            simp [rerollStateAt, hrt]
          rw [hstate]
    · have hcons : reroll_values roll t (r :: rs) g =
          (r :: (reroll_values roll t rs g).1, (reroll_values roll t rs g).2) := by
        simp [reroll_values, hrt]
      constructor
      · rw [hcons]
        simp [(ih g).1]
      · intro i v hv
        rw [hcons]
        match i with
        | 0 =>
          have hv0 : r = v := by simpa using hv
          subst hv0
          rw [if_neg hrt]
          simp
        | i + 1 =>
          have hvi : rs[i]? = some v := by simpa using hv
          have htail : (r :: (reroll_values roll t rs g).1)[i + 1]?
              = (reroll_values roll t rs g).1[i]? := List.getElem?_cons_succ
          rw [htail, (ih g).2 i v hvi]
          have hstate : rerollStateAt roll t (List.take (i + 1) (r :: rs)) g
              = rerollStateAt roll t (List.take i rs) g := by
            rw [List.take_succ_cons]
            simp [rerollStateAt, hrt]
          rw [hstate]

/-- Witness for C6 on a deterministic repeating dice whose single draw is
always 5: rerolling `[1, 2, 1]` on trigger set `[1]` gives `[5, 2, 5]`. -/
theorem reroll_pointwise_witness :
    (reroll_values (rollNumeric (fun _ => 0) (NumericDice.RepeatingDice [5, 9]))
        [1] [1, 2, 1] 0).1.length = 3 ∧
    (reroll_values (rollNumeric (fun _ => 0) (NumericDice.RepeatingDice [5, 9]))
        [1] [1, 2, 1] 0).1[0]? = some 5 ∧
    (reroll_values (rollNumeric (fun _ => 0) (NumericDice.RepeatingDice [5, 9]))
        [1] [1, 2, 1] 0).1[1]? = some 2 := by
  have h := reroll_pointwise (rollNumeric (fun _ => 0) (NumericDice.RepeatingDice [5, 9]))
    [1] (fun g => rfl) [1, 2, 1] 0
  exact ⟨h.1, (h.2 0 1 rfl).trans (by decide), (h.2 1 2 rfl).trans (by decide)⟩

lemma explodeBatch_shift {T : Type} [DecidableEq T] (roll : Nat → Nat → List T × Nat)
    (evs rolls : List T) (g : Nat) :
    ∀ i, explodeBatch roll evs rolls g (i + 1) =
      explodeBatch roll evs (roll (matchCount evs rolls % 256) g).1
        (roll (matchCount evs rolls % 256) g).2 i := by
  intro i
  induction i with
  | zero => rfl
  | succ i ih =>
    conv_lhs => rw [explodeBatch]
    conv_rhs => rw [explodeBatch]
    rw [ih]

lemma explodeF_of_batch_nil {T : Type} [DecidableEq T] (roll : Nat → Nat → List T × Nat)
    (evs : List T) :
    ∀ (n : Nat) (rolls : List T) (g : Nat),
      (explodeBatch roll evs rolls g n).1 = [] →
      (∀ m, m < n → (explodeBatch roll evs rolls g m).1 ≠ []) →
      explodeF roll evs n rolls g =
        some (((List.range n).map fun i => (explodeBatch roll evs rolls g i).1).flatten,
              (explodeBatch roll evs rolls g n).2) := by
  intro n
  induction n with
  | zero =>
    intro rolls g hnil _
    have hrolls : rolls = [] := hnil
    subst hrolls
    rfl
  | succ n ih =>
    intro rolls g hnil hmin
    have h0 : rolls ≠ [] := hmin 0 (Nat.succ_pos n)
    obtain ⟨r, rs, hr⟩ := List.exists_cons_of_ne_nil h0
    subst hr
    have hshift := explodeBatch_shift roll evs (r :: rs) g
    have hnil' : (explodeBatch roll evs
        (roll (matchCount evs (r :: rs) % 256) g).1
        (roll (matchCount evs (r :: rs) % 256) g).2 n).1 = [] := by
      rw [← hshift n]; exact hnil
    have hmin' : ∀ m, m < n → (explodeBatch roll evs
        (roll (matchCount evs (r :: rs) % 256) g).1
        (roll (matchCount evs (r :: rs) % 256) g).2 m).1 ≠ [] := by
      intro m hm
      rw [← hshift m]
      exact hmin (m + 1) (by omega)
    have hih := ih _ _ hnil' hmin'
    have hflat : ((List.range (n + 1)).map fun i => (explodeBatch roll evs (r :: rs) g i).1).flatten
        = r :: rs ++ ((List.range n).map fun i => (explodeBatch roll evs
            (roll (matchCount evs (r :: rs) % 256) g).1
            (roll (matchCount evs (r :: rs) % 256) g).2 i).1).flatten := by
      rw [List.range_succ_eq_map, List.map_cons, List.flatten_cons, List.map_map]
      have hhead : (explodeBatch roll evs (r :: rs) g 0).1 = r :: rs := rfl
      rw [hhead]
      congr 1
      have hmap : List.map ((fun i => (explodeBatch roll evs (r :: rs) g i).1) ∘ Nat.succ)
            (List.range n)
          = List.map (fun i => (explodeBatch roll evs
              (roll (matchCount evs (r :: rs) % 256) g).1
              (roll (matchCount evs (r :: rs) % 256) g).2 i).1) (List.range n) := by
        refine List.map_congr_left ?_
        intro i _
        show (explodeBatch roll evs (r :: rs) g (i + 1)).1 = _
        rw [hshift i]
      rw [hmap]
    simp only [explodeF, hih]
    rw [hflat, hshift n]

lemma explodeF_some_batch_nil {T : Type} [DecidableEq T] (roll : Nat → Nat → List T × Nat)
    (evs : List T) :
    ∀ (fuel : Nat) (rolls : List T) (g : Nat) (res : List T × Nat),
      explodeF roll evs fuel rolls g = some res →
      ∃ n, n ≤ fuel ∧ (explodeBatch roll evs rolls g n).1 = [] := by
  intro fuel
  induction fuel with
  | zero =>
    intro rolls g res h
    cases rolls with
    | nil => exact ⟨0, le_rfl, rfl⟩
    | cons r rs => exact Option.noConfusion h
  | succ fuel ih =>
    intro rolls g res h
    cases rolls with
    | nil => exact ⟨0, by omega, rfl⟩
    | cons r rs =>
      simp only [explodeF] at h
      cases hin : explodeF roll evs fuel
          (roll (matchCount evs (r :: rs) % 256) g).1
          (roll (matchCount evs (r :: rs) % 256) g).2 with
      | none => rw [hin] at h; exact Option.noConfusion h
      | some q =>
        obtain ⟨n, hn, hnil⟩ := ih _ _ q hin
        refine ⟨n + 1, by omega, ?_⟩
        rw [explodeBatch_shift roll evs (r :: rs) g n]
        exact hnil

/-- C3 (amended): for dice that return exactly the requested number of values,
batch `i+1` of the explode recursion has size equal to the trigger-match count
of batch `i` reduced modulo 256 (the count is cast to the 8-bit dice-count
type); when the batch sequence reaches an empty batch, the result is the
original values followed by the successive appended batches; the recursion
terminates exactly when some batch's match count is 0 modulo 256; and when
every value the dice can draw lies outside the trigger set, the recursion
terminates. -/
theorem explode_batch_structure_and_termination {T : Type} [DecidableEq T]
    (roll : Nat → Nat → List T × Nat) (evs rolls : List T) (g : Nat)
    (hwf : ∀ k h, ((roll k h).1).length = k) :
    (∀ i, ((explodeBatch roll evs rolls g (i + 1)).1).length
        = matchCount evs (explodeBatch roll evs rolls g i).1 % 256) ∧
    (∀ n, (explodeBatch roll evs rolls g n).1 = [] →
      (∀ m, m < n → (explodeBatch roll evs rolls g m).1 ≠ []) →
      explodeF roll evs n rolls g =
        some (((List.range n).map fun i => (explodeBatch roll evs rolls g i).1).flatten,
              (explodeBatch roll evs rolls g n).2)) ∧
    ((∃ fuel res, explodeF roll evs fuel rolls g = some res)
      ↔ ∃ i, matchCount evs (explodeBatch roll evs rolls g i).1 % 256 = 0) ∧
    ((∀ k h v, v ∈ (roll k h).1 → v ∉ evs) →
      ∃ fuel res, explodeF roll evs fuel rolls g = some res) := by
  have hterm : (∃ fuel res, explodeF roll evs fuel rolls g = some res)
      ↔ ∃ i, matchCount evs (explodeBatch roll evs rolls g i).1 % 256 = 0 := by
    constructor
    · rintro ⟨fuel, res, h⟩
      obtain ⟨n, _, hnil⟩ := explodeF_some_batch_nil roll evs fuel rolls g res h
      refine ⟨n, ?_⟩
      rw [hnil]
      rfl
    · rintro ⟨i, hi⟩
      have hempty : ∃ n, (explodeBatch roll evs rolls g n).1 = [] := by
        refine ⟨i + 1, ?_⟩
        show (roll (matchCount evs (explodeBatch roll evs rolls g i).1 % 256)
            (explodeBatch roll evs rolls g i).2).1 = []
        rw [hi]
        exact List.length_eq_zero.mp (hwf 0 _)
      have hfind := Nat.find_spec hempty
      refine ⟨Nat.find hempty, _, explodeF_of_batch_nil roll evs _ rolls g hfind ?_⟩
      intro m hm
      exact Nat.find_min hempty hm
  refine ⟨?_, fun n => explodeF_of_batch_nil roll evs n rolls g, hterm, ?_⟩
  · intro i
    exact hwf _ _
  · intro hall
    refine hterm.mpr ⟨1, ?_⟩
    have hz : matchCount evs (explodeBatch roll evs rolls g 1).1 = 0 := by
      refine List.countP_eq_zero.mpr ?_
      intro a ha
      simpa using hall _ _ a ha
    rw [hz]

lemma explode_repeating12_diverges (om : Nat → Nat) :
    ∀ fuel g, explodeF (rollNumeric om (NumericDice.RepeatingDice [1, 2])) [1] fuel [1] g = none := by
  intro fuel
  induction fuel with
  | zero => intro g; rfl
  | succ fuel ih =>
    intro g
    simp only [explodeF]
    rw [show (rollNumeric om (NumericDice.RepeatingDice [1, 2])
        (matchCount [1] [1] % 256) g) = ([1], g) from rfl]
    rw [ih g]

set_option maxRecDepth 20000 in
/-- C3 counterexample to the claim as stated, at two explicit inputs.  With a
constant dice always rolling 1, trigger set `{1}` and 256 starting values all
equal to 1 (256 matches), the code terminates immediately with no appended
batch — the claimed next batch of size 256 never appears, and termination
happens at a batch with 256 (not zero) matching values, because the match
count is truncated to `u8`.  With the repeating dice over `[1, 2]` — a dice
that can produce the draw 2, outside the trigger set `{1}` — starting from
`[1]`, the recursion never terminates (every single draw is `[1]`), refuting
the claim's final clause. -/
theorem explode_claim_counterexample :
    explodeF (rollNumeric (fun _ => 0) (NumericDice.ConstDice 1)) [1] 2
        (List.replicate 256 1) 0 = some (List.replicate 256 1, 0) ∧
    matchCount [1] (List.replicate 256 1) = 256 ∧
    (rollNumeric (fun _ => 0) (NumericDice.RepeatingDice [1, 2]) 2 0).1 = [1, 2] ∧
    (2 : Nat) ∉ ([1] : List Nat) ∧
    ¬ ∃ fuel res, explodeF (rollNumeric (fun _ => 0) (NumericDice.RepeatingDice [1, 2]))
        [1] fuel [1] 0 = some res := by
  refine ⟨by decide, by decide, by decide, by decide, ?_⟩
  rintro ⟨fuel, res, h⟩
  rw [explode_repeating12_diverges (fun _ => 0) fuel 0] at h
  exact Option.noConfusion h

/-- Witness for C3 on a constant dice rolling 5 with trigger set `{1}`: every
draw lies outside the trigger set, so the recursion terminates. -/
theorem explode_batch_structure_witness :
    ∃ fuel res, explodeF (rollNumeric (fun _ => 0) (NumericDice.ConstDice 5)) [1] fuel [1] 0
      = some res := by
  have h := explode_batch_structure_and_termination
    (rollNumeric (fun _ => 0) (NumericDice.ConstDice 5)) [1] [1] 0
    (fun k h => List.length_replicate k 5)
  refine h.2.2.2 ?_
  intro k hg v hv
  have hv5 : v = 5 := (List.eq_of_mem_replicate hv)
  subst hv5
  decide

end LetsRoll
